import Mathlib

/-!
Shallow embedding of the portfolio risk-calculation engine
(`src/OilTrading.Api/Scripts/risk_engine.py`) and of its sibling helper
script, over exact rational arithmetic.  Python floats are modelled as `ℚ`;
`np.round` (round half to even) as `roundE`; numpy arrays as `List ℚ`;
the `returns` / `current_prices` dicts as association lists (Python dicts
iterate in insertion order).  External numeric libraries (`scipy`'s inverse
CDFs, `arch`'s GARCH fit, `np.linalg`, `np.random`) appear as explicit
function parameters: every theorem quantifies over them, so nothing is
assumed about their values.
-/

/-- `np.round`: round half to even (banker's rounding), as an integer.
Phrased over the numerator and denominator so that the kernel can evaluate
it: `q.num / q.den` is `⌊q⌋` and `2*(q.num - ⌊q⌋*q.den) ⋚ q.den` compares
the fractional part with `1/2` (see `roundHalfEven_eq_cases`). -/
def roundHalfEven (q : ℚ) : ℤ :=
  let f := q.num / q.den
  let r2 := 2 * (q.num - f * q.den)
  if r2 < q.den then f
  else if (q.den : ℤ) < r2 then f + 1
  else if f % 2 = 0 then f else f + 1

/-- `float(np.round(x))`: the rounded value back in the numeric domain. -/
def roundE (q : ℚ) : ℚ := (roundHalfEven q : ℚ)

/-- One entry of the `positions` list: `product`, `quantity`, `lotSize`,
`currentPrice` and the `position` key (`"Long"` / `"Short"`), here `side`. -/
structure Position where
  product : String
  quantity : ℚ
  lotSize : ℚ
  currentPrice : ℚ
  side : String
deriving DecidableEq, Repr

/-- The `{var95, var99}` result dictionary. -/
structure VaR where
  var95 : ℚ
  var99 : ℚ
deriving DecidableEq, Repr

/-- `product in returns` / `returns[product]` on the association list. -/
def dictLookup (d : List (String × List ℚ)) (k : String) : Option (List ℚ) :=
  (d.find? (fun p => p.1 == k)).map (·.2)

/-- `min(len(r) for r in returns.values())` for a nonempty dict
(`0` for the empty dict, a case the callers guard). -/
def minLen (d : List (String × List ℚ)) : ℕ :=
  match d with
  | [] => 0
  | (_, r) :: t => t.foldl (fun m p => min m p.2.length) r.length

/-- `_calculate_portfolio_value`: sum of `abs(quantity*lotSize*currentPrice)`. -/
def calculate_portfolio_value (positions : List Position) : ℚ :=
  positions.foldl
    (fun acc pos => acc + |pos.quantity * pos.lotSize * pos.currentPrice|) 0

/-- `_calculate_portfolio_returns`: the weighted portfolio return series.
Empty dict or zero common length give the empty series; zero total value
gives an all-zero series; otherwise each position whose product is in the
dict adds `weight * sign * series[:min_length]`. -/
def calculate_portfolio_returns (positions : List Position)
    (returns : List (String × List ℚ)) : List ℚ :=
  if returns.isEmpty then []
  else
    let m := minLen returns
    if m = 0 then []
    else
      let total := calculate_portfolio_value positions
      if total = 0 then List.replicate m 0
      else
        positions.foldl (fun acc pos =>
          match dictLookup returns pos.product with
          | none => acc
          | some series =>
            let w := |pos.quantity * pos.lotSize * pos.currentPrice| / total
            let pr := (series.take m).map
              (fun x => if pos.side = "Short" then -x else x)
            List.zipWith (· + ·) acc (pr.map (w * ·)))
          (List.replicate m 0)

/-- `np.sort`: ascending sort of the series. -/
def sortAsc (l : List ℚ) : List ℚ := List.insertionSort (· ≤ ·) l

/-- `_historical_var`: empty series gives `{0,0}`; otherwise sort ascending
and read the observations at the truncated indices `int(n*0.05)` and
`int(n*0.01)`, scale by the portfolio value, take magnitudes and round. -/
def historical_var (returns : List ℚ) (portfolio_value : ℚ) : VaR :=
  if returns.length = 0 then ⟨0, 0⟩
  else
    let s := sortAsc returns
    let i95 := returns.length * 5 / 100
    let i99 := returns.length * 1 / 100
    ⟨roundE |s.getD i95 0 * portfolio_value|,
     roundE |s.getD i99 0 * portfolio_value|⟩

/-- The RiskMetrics decay factor `lambda_param = 0.94`. -/
def lambdaP : ℚ := 94 / 100

/-- The EWMA variance of `_simplified_garch`, exactly as coded: raw weights
`(1-λ)·λ^i` over `range n`, normalized by their sum, elementwise product
with the reversed squared-return series, then summed. -/
def ewmaVariance (r : List ℚ) : ℚ :=
  let squared := r.map (fun x => x ^ 2)
  let weightsRaw := (List.range r.length).map
    (fun i => (1 - lambdaP) * lambdaP ^ i)
  let wsum := weightsRaw.sum
  let weights := weightsRaw.map (· / wsum)
  (List.zipWith (· * ·) weights squared.reverse).sum

/-- The EWMA variance as the specification words it: the normalized weight
`(1-λ)·λ^i` attaches to the squared return at lag `i` counted backward from
the most recent observation, i.e. to `r[n-1-i]²`. -/
def ewmaVarianceSpec (r : List ℚ) : ℚ :=
  let n := r.length
  let wsum := ((List.range n).map (fun i => (1 - lambdaP) * lambdaP ^ i)).sum
  ((List.range n).map (fun i =>
    ((1 - lambdaP) * lambdaP ^ i / wsum) * (r.getD (n - 1 - i) 0) ^ 2)).sum

/-- `_simplified_garch`: EWMA volatility and Normal-quantile VaR.
`z05`/`z99` stand for `stats.norm.ppf(0.05)` / `stats.norm.ppf(0.01)` and
`S` for the square-root function, both supplied by external libraries. -/
def simplified_garch (z05 z99 : ℚ) (S : ℚ → ℚ) (r : List ℚ)
    (portfolio_value : ℚ) : ℚ × ℚ :=
  let volatility := S (ewmaVariance r)
  (|z05 * volatility * portfolio_value|, |z99 * volatility * portfolio_value|)

/-- `calculate_garch_var` on its non-exceptional paths.  `arch` is the
`ARCH_AVAILABLE` flag; `fit` abstracts the `arch_model` fit and returns the
fitted tail quantiles (`stats.t.ppf` with the fitted `nu`, or Normal
quantiles after the Normal refit) together with the predicted volatility;
`z05`, `z99`, `S` are as in `simplified_garch`.  Fewer than 100 observations
route directly to `historical_var`; otherwise the chosen branch's magnitudes
are rounded with `np.round`. -/
def calculate_garch_var (arch : Bool) (fit : List ℚ → ℚ × ℚ × ℚ)
    (z05 z99 : ℚ) (S : ℚ → ℚ) (positions : List Position)
    (returns : List (String × List ℚ)) : VaR :=
  let portfolio_value := calculate_portfolio_value positions
  let portfolio_returns := calculate_portfolio_returns positions returns
  if portfolio_returns.length < 100 then
    historical_var portfolio_returns portfolio_value
  else if arch then
    let q := fit portfolio_returns
    ⟨roundE |q.1 * q.2.2 * portfolio_value|,
     roundE |q.2.1 * q.2.2 * portfolio_value|⟩
  else
    let v := simplified_garch z05 z99 S portfolio_returns portfolio_value
    ⟨roundE v.1, roundE v.2⟩

/-- `np.percentile(a, q)` with the default linear interpolation:
position `h = (n-1)·q/100`, value `a[⌊h⌋] + (h-⌊h⌋)·(a[⌊h⌋+1] - a[⌊h⌋])`
on the ascending sort (the upper neighbour collapses at the right edge). -/
def percentile (l : List ℚ) (q : ℚ) : ℚ :=
  let s := sortAsc l
  let n := s.length
  if n = 0 then 0
  else
    let h : ℚ := (n - 1) * q / 100
    let lo : ℕ := (⌊h⌋).toNat
    let a := s.getD lo 0
    let b := s.getD (lo + 1) a
    a + (h - ⌊h⌋) * (b - a)

/-- `_aggregate_simulated_returns`: starting from the zero vector, each
position whose product is among `products` adds (Short: subtracts)
`weight * column`, where the column is read at `products.index(product)`
across the simulation rows; zero total value returns the zero vector. -/
def aggStep (products : List String) (sim : List (List ℚ)) (total : ℚ)
    (acc : List ℚ) (pos : Position) : List ℚ :=
  if pos.product ∈ products then
    let idx := products.indexOf pos.product
    let w := |pos.quantity * pos.lotSize * pos.currentPrice| / total
    let col := sim.map (fun row => row.getD idx 0)
    if pos.side = "Short" then
      List.zipWith (fun a c => a - w * c) acc col
    else
      List.zipWith (fun a c => a + w * c) acc col
  else acc

def aggregate_simulated_returns (positions : List Position)
    (products : List String) (sim : List (List ℚ)) : List ℚ :=
  let total := calculate_portfolio_value positions
  let zero := List.replicate sim.length (0 : ℚ)
  if total = 0 then zero
  else positions.foldl (aggStep products sim total) zero

/-- The portfolio-level simulated return vector of
`calculate_monte_carlo_var`: with a single product the raw draws of
`np.random.normal(mean, std, simulations)` are used directly; with several
products, the correlated sample (Cholesky- or eigen-based, abstracted into
`drawMatrix`) goes through `aggregate_simulated_returns`. -/
def mc_portfolio_sim (drawSingle : ℕ → List ℚ)
    (drawMatrix : ℕ → ℕ → List (List ℚ)) (positions : List Position)
    (products : List String) (simulations : ℕ) : List ℚ :=
  if products.length = 1 then drawSingle simulations
  else aggregate_simulated_returns positions products
    (drawMatrix simulations products.length)

/-- `calculate_monte_carlo_var` on its non-exceptional paths.  The random
draws are the parameters `drawSingle` (single-product Normal sample) and
`drawMatrix` (the correlated matrix `mean + Z @ L.T`); an empty `returns`
dict gives `{0,0}`; otherwise simulated P&L is the portfolio vector scaled
by the portfolio value and the VaR figures are the absolute 5th / 1st
`np.percentile`, rounded. -/
def calculate_monte_carlo_var (drawSingle : ℕ → List ℚ)
    (drawMatrix : ℕ → ℕ → List (List ℚ)) (positions : List Position)
    (returns : List (String × List ℚ)) (simulations : ℕ) : VaR :=
  let portfolio_value := calculate_portfolio_value positions
  let products := returns.map (·.1)
  if products.length = 0 then ⟨0, 0⟩
  else
    let portfolio_sim :=
      mc_portfolio_sim drawSingle drawMatrix positions products simulations
    let pnl := portfolio_sim.map (· * portfolio_value)
    ⟨roundE |percentile pnl 5|, roundE |percentile pnl 1|⟩

/-- One `stress_results` entry. -/
structure StressResult where
  scenario : String
  pnlImpact : ℚ
  description : String
deriving DecidableEq, Repr

/-- `current_prices` lookup. -/
def priceLookup (d : List (String × ℚ)) (k : String) : Option ℚ :=
  (d.find? (fun p => p.1 == k)).map (·.2)

/-- `_calculate_stress_impact`: positions whose product has a current price
contribute `(price*(1+s) - price) * quantity * lotSize * (Long ? 1 : -1)`;
the others contribute nothing. -/
def stressStep (current_prices : List (String × ℚ)) (shock_percentage : ℚ)
    (acc : ℚ) (pos : Position) : ℚ :=
  match priceLookup current_prices pos.product with
  | none => acc
  | some current_price =>
    let shocked_price := current_price * (1 + shock_percentage)
    let price_change := shocked_price - current_price
    let multiplier : ℚ := if pos.side = "Long" then 1 else -1
    acc + price_change * pos.quantity * pos.lotSize * multiplier

def calculate_stress_impact (positions : List Position)
    (current_prices : List (String × ℚ)) (shock_percentage : ℚ) : ℚ :=
  positions.foldl (stressStep current_prices shock_percentage) 0

/-- The per-position impact as the specification words it:
`(currentPrice*s) * quantity * lotSize * (+1 if Long else -1)`, zero when
the product has no current price. -/
def stressPosImpact (current_prices : List (String × ℚ)) (s : ℚ)
    (pos : Position) : ℚ :=
  match priceLookup current_prices pos.product with
  | none => 0
  | some p =>
    p * s * pos.quantity * pos.lotSize *
      (if pos.side = "Long" then 1 else -1)

/-- The total stress impact as the specification words it: the sum of the
per-position impacts. -/
def stressImpactSpec (positions : List Position)
    (current_prices : List (String × ℚ)) (s : ℚ) : ℚ :=
  (positions.map (stressPosImpact current_prices s)).sum

/-- `run_stress_tests`: the three canned scenarios at shocks `-10%`, `+10%`
and `-15%`, each impact rounded with `np.round`. -/
def run_stress_tests (positions : List Position)
    (current_prices : List (String × ℚ)) : List StressResult :=
  [⟨"-10% Shock",
    roundE (calculate_stress_impact positions current_prices (-(10/100))),
    "10% decline in all oil and fuel prices"⟩,
   ⟨"+10% Shock",
    roundE (calculate_stress_impact positions current_prices (10/100)),
    "10% increase in all oil and fuel prices"⟩,
   ⟨"Historical Worst",
    roundE (calculate_stress_impact positions current_prices (-(15/100))),
    "Repeat of historical worst daily oil price decline"⟩]

/-- The state of numpy's process-global pseudorandom generator, abstractly:
`np.random.seed(s)` puts the generator into a state fully determined by `s`,
and each draw advances the state deterministically.  The state space is
abstract (`ℕ`); all draw functions over it are theorem parameters. -/
structure RngState where
  state : ℕ
deriving DecidableEq, Repr

/-- `np.random.seed(seed)`: the post-seeding generator state, a function of
the seed alone (the prior state is discarded). -/
def np_random_seed (seed : ℕ) : RngState := ⟨seed⟩

/-- A `RiskEngine` instance: `__init__` stores `self.seed`, nothing else. -/
structure RiskEngine where
  seed : ℕ
deriving DecidableEq, Repr

/-- `RiskEngine(seed)`: constructs the instance and, as a side effect on the
process, calls `np.random.seed(seed)` on the global generator. -/
def riskEngine_init (seed : ℕ) (g : RngState) : RiskEngine × RngState :=
  ((⟨seed⟩ : RiskEngine), np_random_seed seed)

/-- `calculate_monte_carlo_var` with the generator threaded explicitly:
`drawSingleR` / `drawMatrixR` consume the global state (one numpy sampling
call per invocation: `np.random.normal` in the single-product case,
`np.random.randn` otherwise) and return the advanced state.  The engine
instance `e` carries no state the computation reads: the body never touches
`self.seed`. -/
def calculate_monte_carlo_var_rng
    (drawSingleR : RngState → ℕ → List ℚ × RngState)
    (drawMatrixR : RngState → ℕ → ℕ → List (List ℚ) × RngState)
    (e : RiskEngine) (positions : List Position)
    (returns : List (String × List ℚ)) (simulations : ℕ) (g : RngState) :
    VaR × RngState :=
  let portfolio_value := calculate_portfolio_value positions
  let products := returns.map (·.1)
  if products.length = 0 then (⟨0, 0⟩, g)
  else
    let drawn :=
      if products.length = 1 then
        let d := drawSingleR g simulations
        (d.1, d.2)
      else
        let d := drawMatrixR g simulations products.length
        (aggregate_simulated_returns positions products d.1, d.2)
    let pnl := drawn.1.map (· * portfolio_value)
    (⟨roundE |percentile pnl 5|, roundE |percentile pnl 1|⟩, drawn.2)

/-- One Monte Carlo request in a call sequence against an engine. -/
structure McCall where
  positions : List Position
  returns : List (String × List ℚ)
  simulations : ℕ

/-- Run a sequence of Monte Carlo calls on one engine instance, threading
the process-global generator state, collecting the outputs in order. -/
def runMcCalls (drawSingleR : RngState → ℕ → List ℚ × RngState)
    (drawMatrixR : RngState → ℕ → ℕ → List (List ℚ) × RngState)
    (e : RiskEngine) : List McCall → RngState → List VaR × RngState
  | [], g => ([], g)
  | c :: cs, g =>
    let r := calculate_monte_carlo_var_rng drawSingleR drawMatrixR e
      c.positions c.returns c.simulations g
    let rest := runMcCalls drawSingleR drawMatrixR e cs r.2
    (r.1 :: rest.1, rest.2)

/-- A whole run: construct the engine with `seed` from process state `g`,
then issue the calls; the result is the list of Monte Carlo outputs. -/
def runFromSeed (drawSingleR : RngState → ℕ → List ℚ × RngState)
    (drawMatrixR : RngState → ℕ → ℕ → List (List ℚ) × RngState)
    (seed : ℕ) (calls : List McCall) (g : RngState) : List VaR :=
  let init := riskEngine_init seed g
  (runMcCalls drawSingleR drawMatrixR init.1 calls init.2).1

/-- Python exception kinds relevant to the engine's failure paths. -/
inductive PyErr where
  | keyError
  | nameError
deriving DecidableEq, Repr

/-- A raw `positions` entry as a Python dict: any key may be absent, and
reading an absent key raises `KeyError`. -/
structure PosDict where
  product : Option String
  quantity : Option ℚ
  lotSize : Option ℚ
  currentPrice : Option ℚ
  side : Option String
deriving DecidableEq, Repr

/-- `abs(pos['quantity'] * pos['lotSize'] * pos['currentPrice'])` on a raw
dict: `KeyError` when a key is missing. -/
def posValueExc (pos : PosDict) : Except PyErr ℚ :=
  match pos.quantity, pos.lotSize, pos.currentPrice with
  | some q, some l, some c => .ok |q * l * c|
  | _, _, _ => .error .keyError

/-- `_calculate_portfolio_value` on raw dicts: the accumulation loop,
raising at the first position with a missing key. -/
def calculate_portfolio_value_exc : List PosDict → Except PyErr ℚ
  | [] => .ok 0
  | pos :: rest => do
    let v ← posValueExc pos
    let tail ← calculate_portfolio_value_exc rest
    pure (v + tail)

/-- `_calculate_portfolio_returns` on raw dicts: as
`calculate_portfolio_returns`, but reading `pos['product']`, the value keys
and `pos['position']` can raise `KeyError`. -/
def calculate_portfolio_returns_exc (positions : List PosDict)
    (returns : List (String × List ℚ)) : Except PyErr (List ℚ) :=
  if returns.isEmpty then .ok []
  else
    let m := minLen returns
    if m = 0 then .ok []
    else do
      let total ← calculate_portfolio_value_exc positions
      if total = 0 then pure (List.replicate m 0)
      else
        positions.foldlM (fun acc pos => do
          match pos.product with
          | none => Except.error PyErr.keyError
          | some prod =>
            match dictLookup returns prod with
            | none => pure acc
            | some series =>
              match pos.quantity, pos.lotSize, pos.currentPrice, pos.side with
              | some q, some l, some c, some sd =>
                let w := |q * l * c| / total
                let pr := (series.take m).map
                  (fun x => if sd = "Short" then -x else x)
                pure (List.zipWith (· + ·) acc (pr.map (w * ·)))
              | _, _, _, _ => Except.error PyErr.keyError)
          (List.replicate m 0)

/-- `calculate_garch_var` with Python's exception flow made explicit.  The
`try` body binds `portfolio_value`, then `portfolio_returns`, then runs the
model stage (abstracted: `garchStageFails` says whether it raises, and
`garchResult` what it returns when it does not).  The `except` handler
evaluates `self._historical_var(portfolio_returns, portfolio_value, ...)`
— but a local name is only bound if its assignment completed before the
exception, and evaluating an unbound local raises `UnboundLocalError`
(modelled as `nameError`), which propagates to the caller. -/
def calculate_garch_var_exc (garchStageFails : Bool)
    (garchResult : List ℚ → ℚ → VaR) (positions : List PosDict)
    (returns : List (String × List ℚ)) : Except PyErr VaR :=
  match calculate_portfolio_value_exc positions with
  | .error _ =>
    -- handler: `portfolio_returns` (and `portfolio_value`) never bound
    .error .nameError
  | .ok portfolio_value =>
    match calculate_portfolio_returns_exc positions returns with
    | .error _ =>
      -- handler: `portfolio_returns` never bound
      .error .nameError
    | .ok portfolio_returns =>
      if portfolio_returns.length < 100 then
        .ok (historical_var portfolio_returns portfolio_value)
      else if garchStageFails then
        -- handler: both locals bound, the fallback succeeds
        .ok (historical_var portfolio_returns portfolio_value)
      else
        .ok (garchResult portfolio_returns portfolio_value)

/-- The portfolio-level aggregation rule as §4.1 words it, per simulation
row `j`: the sum over positions whose product is in the simulated set of
`sign * weight * instrumentReturn`, with `weight` the position's share of
the total exposure and `sign = -1` for Short, `+1` otherwise. -/
def aggPosContribution (products : List String) (sim : List (List ℚ))
    (total : ℚ) (j : ℕ) (pos : Position) : ℚ :=
  if pos.product ∈ products then
    (if pos.side = "Short" then -1 else 1) *
      (|pos.quantity * pos.lotSize * pos.currentPrice| / total) *
      ((sim.getD j []).getD (products.indexOf pos.product) 0)
  else 0

def aggSimSpec (positions : List Position) (products : List String)
    (sim : List (List ℚ)) (j : ℕ) : ℚ :=
  (positions.map (aggPosContribution products sim
    (calculate_portfolio_value positions) j)).sum

/- ------------------------------------------------------------------ -/
/- Helper lemmas                                                       -/
/- ------------------------------------------------------------------ -/

/-- `roundHalfEven` in terms of `⌊q⌋` and the fractional part. -/
theorem roundHalfEven_eq_cases (q : ℚ) :
    roundHalfEven q =
      if q - ⌊q⌋ < 1/2 then ⌊q⌋
      else if 1/2 < q - ⌊q⌋ then ⌊q⌋ + 1
      else if ⌊q⌋ % 2 = 0 then ⌊q⌋ else ⌊q⌋ + 1 := by
  have hd0 : (0:ℤ) < (q.den : ℤ) := by exact_mod_cast q.pos
  have hd0Q : (0:ℚ) < ((q.den : ℤ) : ℚ) := by exact_mod_cast hd0
  have hfl : ⌊q⌋ = q.num / q.den := Rat.floor_def
  have hfrac : q - (⌊q⌋ : ℚ)
      = ((q.num - ⌊q⌋ * q.den : ℤ) : ℚ) / ((q.den : ℤ) : ℚ) := by
    have hqq : (q : ℚ) = (q.num : ℚ) / (q.den : ℚ) := (Rat.num_div_den q).symm
    push_cast
    rw [sub_div, ← hqq]
    congr 1
    field_simp
  have hlt : (q - (⌊q⌋:ℚ) < 1/2)
      ↔ (2 * (q.num - ⌊q⌋ * q.den) < (q.den:ℤ)) := by
    rw [hfrac, div_lt_div_iff hd0Q (by norm_num : (0:ℚ) < 2)]
    constructor
    · intro h
      have h' : (q.num - ⌊q⌋ * q.den) * 2 < 1 * (q.den:ℤ) := by exact_mod_cast h
      linarith
    · intro h
      have h' : ((q.num - ⌊q⌋ * q.den) * 2 : ℤ) < 1 * (q.den:ℤ) := by linarith
      exact_mod_cast h'
  have hgt : (1/2 < q - (⌊q⌋:ℚ))
      ↔ ((q.den:ℤ) < 2 * (q.num - ⌊q⌋ * q.den)) := by
    rw [hfrac, div_lt_div_iff (by norm_num : (0:ℚ) < 2) hd0Q]
    constructor
    · intro h
      have h' : (1 : ℤ) * (q.den:ℤ) < (q.num - ⌊q⌋ * q.den) * 2 := by
        exact_mod_cast h
      linarith
    · intro h
      have h' : ((1:ℤ) * (q.den:ℤ)) < (q.num - ⌊q⌋ * q.den) * 2 := by linarith
      exact_mod_cast h'
  simp only [roundHalfEven, ← hfl, hlt, hgt]

theorem roundHalfEven_bounds (q : ℚ) :
    ⌊q⌋ ≤ roundHalfEven q ∧ roundHalfEven q ≤ ⌊q⌋ + 1 := by
  rw [roundHalfEven_eq_cases]
  split_ifs <;> omega

theorem roundHalfEven_mono {q r : ℚ} (h : q ≤ r) :
    roundHalfEven q ≤ roundHalfEven r := by
  have hf : ⌊q⌋ ≤ ⌊r⌋ := Int.floor_mono h
  rcases lt_or_eq_of_le hf with hlt | heq
  · have h1 := roundHalfEven_bounds q
    have h2 := roundHalfEven_bounds r
    omega
  · have heqQ : ((⌊q⌋ : ℤ) : ℚ) = ((⌊r⌋ : ℤ) : ℚ) := by exact_mod_cast heq
    rw [roundHalfEven_eq_cases, roundHalfEven_eq_cases, ← heq]
    split_ifs <;> first | omega | linarith

theorem roundE_mono {q r : ℚ} (h : q ≤ r) : roundE q ≤ roundE r := by
  unfold roundE
  exact_mod_cast roundHalfEven_mono h

theorem roundE_zero : roundE 0 = 0 := by with_unfolding_all decide

theorem sortAsc_length (l : List ℚ) : (sortAsc l).length = l.length :=
  (List.perm_insertionSort (· ≤ ·) l).length_eq

theorem sortAsc_sorted (l : List ℚ) : (sortAsc l).Sorted (· ≤ ·) :=
  List.sorted_insertionSort (· ≤ ·) l

theorem sortAsc_mem {l : List ℚ} {x : ℚ} (h : x ∈ sortAsc l) : x ∈ l :=
  (List.perm_insertionSort (· ≤ ·) l).subset h

theorem getD_eq_getElem_of_lt {α : Type} {l : List α} {i : ℕ}
    (h : i < l.length) (d : α) : l.getD i d = l[i] := by
  rw [List.getD_eq_getElem?_getD, List.getElem?_eq_getElem h]
  rfl

theorem getD_eq_default_of_ge {α : Type} {l : List α} {i : ℕ}
    (h : l.length ≤ i) (d : α) : l.getD i d = d := by
  rw [List.getD_eq_getElem?_getD, List.getElem?_eq_none h]
  rfl

theorem sortAsc_getD_mono (l : List ℚ) {i j : ℕ} (hij : i ≤ j)
    (hj : j < l.length) : (sortAsc l).getD i 0 ≤ (sortAsc l).getD j 0 := by
  have hj' : j < (sortAsc l).length := by rw [sortAsc_length]; exact hj
  have hi' : i < (sortAsc l).length := lt_of_le_of_lt hij hj'
  rw [getD_eq_getElem_of_lt hi', getD_eq_getElem_of_lt hj']
  exact (sortAsc_sorted l).rel_get_of_le (a := ⟨i, hi'⟩) (b := ⟨j, hj'⟩) hij

theorem getD_zero_of_all_zero {l : List ℚ} (h : ∀ x ∈ l, x = 0) (i : ℕ) :
    l.getD i 0 = 0 := by
  rcases lt_or_ge i l.length with hi | hi
  · rw [getD_eq_getElem_of_lt hi]
    exact h _ (List.getElem_mem hi)
  · exact getD_eq_default_of_ge hi 0

/-- A zip of two equally long lists as a map over index range. -/
theorem zipWith_eq_map_range (f : ℚ → ℚ → ℚ) :
    ∀ (a b : List ℚ), a.length = b.length →
      List.zipWith f a b
        = (List.range a.length).map (fun i => f (a.getD i 0) (b.getD i 0)) := by
  intro a
  induction a with
  | nil => intro b _; simp
  | cons x xs ih =>
    intro b hb
    cases b with
    | nil => simp at hb
    | cons y ys =>
      have hb' : xs.length = ys.length := by simpa using hb
      simp only [List.zipWith_cons_cons, List.length_cons,
        List.range_succ_eq_map, List.map_cons, List.map_map,
        List.getD_cons_zero]
      congr 1
      rw [ih ys hb']
      apply List.map_congr_left
      intro i _
      simp [Function.comp, List.getD_cons_succ]

theorem getD_map_range (g : ℕ → ℚ) {n i : ℕ} (h : i < n) :
    ((List.range n).map g).getD i 0 = g i := by
  have h' : i < ((List.range n).map g).length := by simpa using h
  rw [getD_eq_getElem_of_lt h']
  simp

theorem getD_reverse_eq (l : List ℚ) {i : ℕ} (h : i < l.length) :
    l.reverse.getD i 0 = l.getD (l.length - 1 - i) 0 := by
  have h1 : i < l.reverse.length := by simpa using h
  have h2 : l.length - 1 - i < l.length := by omega
  rw [getD_eq_getElem_of_lt h1, getD_eq_getElem_of_lt h2]
  rw [List.getElem_reverse]

theorem getD_map_sq (r : List ℚ) {j : ℕ} (h : j < r.length) :
    (r.map (fun x => x ^ 2)).getD j 0 = (r.getD j 0) ^ 2 := by
  have h' : j < (r.map (fun x => x ^ 2)).length := by simpa using h
  rw [getD_eq_getElem_of_lt h', getD_eq_getElem_of_lt h]
  simp

/-- The coded EWMA (normalized weight vector times the reversed squared
series) agrees with the specification's lag-indexed formula. -/
theorem ewmaVariance_eq_spec (r : List ℚ) :
    ewmaVariance r = ewmaVarianceSpec r := by
  simp only [ewmaVariance, ewmaVarianceSpec]
  rw [List.map_map]
  rw [zipWith_eq_map_range _ _ _ (by simp)]
  simp only [List.length_map, List.length_range]
  congr 1
  apply List.map_congr_left
  intro i hi
  have hi' : i < r.length := List.mem_range.mp hi
  have hrev : (r.map (fun x => x ^ 2)).reverse.getD i 0
      = (r.getD (r.length - 1 - i) 0) ^ 2 := by
    have hlen : i < (r.map (fun x => x ^ 2)).length := by simpa using hi'
    rw [getD_reverse_eq _ hlen]
    simp only [List.length_map]
    exact getD_map_sq r (by omega)
  rw [getD_map_range _ hi', hrev]
  rfl

theorem percentile_zero_of_all_zero (l : List ℚ) (q : ℚ)
    (h : ∀ x ∈ l, x = 0) : percentile l q = 0 := by
  have hs : ∀ x ∈ sortAsc l, x = 0 := fun x hx => h x (sortAsc_mem hx)
  simp only [percentile]
  split_ifs with h0
  · rfl
  · simp only [getD_zero_of_all_zero hs]
    ring

theorem historical_var_zero_value (r : List ℚ) :
    historical_var r 0 = ⟨0, 0⟩ := by
  simp only [historical_var]
  split_ifs with h
  · rfl
  · simp [mul_zero, abs_zero, roundE_zero]

/-- Any admissible fit parameters: zero portfolio value forces a zero
GARCH-path result on every branch. -/
theorem garch_var_zero_value (arch : Bool) (fit : List ℚ → ℚ × ℚ × ℚ)
    (z05 z99 : ℚ) (S : ℚ → ℚ) (positions : List Position)
    (returns : List (String × List ℚ))
    (h : calculate_portfolio_value positions = 0) :
    calculate_garch_var arch fit z05 z99 S positions returns = ⟨0, 0⟩ := by
  simp only [calculate_garch_var, h]
  split_ifs with h1 h2
  · exact historical_var_zero_value _
  · simp [mul_zero, abs_zero, roundE_zero]
  · simp [simplified_garch, mul_zero, abs_zero, roundE_zero]

theorem mc_var_zero_value (dS : ℕ → List ℚ) (dM : ℕ → ℕ → List (List ℚ))
    (positions : List Position) (returns : List (String × List ℚ))
    (sims : ℕ) (h : calculate_portfolio_value positions = 0) :
    calculate_monte_carlo_var dS dM positions returns sims = ⟨0, 0⟩ := by
  simp only [calculate_monte_carlo_var, h]
  split_ifs with h1
  · rfl
  · have hz : ∀ x ∈ (mc_portfolio_sim dS dM positions
        (returns.map (·.1)) sims).map (· * (0:ℚ)), x = 0 := by
      intro x hx
      rcases List.mem_map.mp hx with ⟨y, _, rfl⟩
      ring
    rw [percentile_zero_of_all_zero _ _ hz, percentile_zero_of_all_zero _ _ hz]
    simp [roundE_zero]

/-- A left fold whose step adds a per-element quantity is the sum of those
quantities shifted by the start value. -/
theorem foldl_add_shift {α : Type} (f : ℚ → α → ℚ) (g : α → ℚ)
    (hf : ∀ acc x, f acc x = acc + g x) :
    ∀ (ps : List α) (a : ℚ), ps.foldl f a = a + (ps.map g).sum := by
  intro ps
  induction ps with
  | nil => intro a; simp
  | cons p t ih =>
    intro a
    rw [List.foldl_cons, hf, ih, List.map_cons, List.sum_cons]
    ring

theorem stressStep_eq (prices : List (String × ℚ)) (s : ℚ)
    (acc : ℚ) (pos : Position) :
    stressStep prices s acc pos = acc + stressPosImpact prices s pos := by
  simp only [stressStep, stressPosImpact]
  cases hp : priceLookup prices pos.product with
  | none => simp
  | some p => simp; ring

/-- The coded stress loop computes exactly the specification's sum. -/
theorem calculate_stress_impact_eq_spec (positions : List Position)
    (prices : List (String × ℚ)) (s : ℚ) :
    calculate_stress_impact positions prices s
      = stressImpactSpec positions prices s := by
  unfold calculate_stress_impact stressImpactSpec
  rw [foldl_add_shift _ _ (stressStep_eq prices s)]
  ring

theorem getD_zipWith (f : ℚ → ℚ → ℚ) (a b : List ℚ) {j : ℕ}
    (hj : j < a.length) (hj' : j < b.length) :
    (List.zipWith f a b).getD j 0 = f (a.getD j 0) (b.getD j 0) := by
  have hz : j < (List.zipWith f a b).length := by
    rw [List.length_zipWith]; omega
  rw [getD_eq_getElem_of_lt hz, getD_eq_getElem_of_lt hj,
    getD_eq_getElem_of_lt hj']
  rw [List.getElem_zipWith]

theorem getD_map_rows (sim : List (List ℚ)) (idx : ℕ) {j : ℕ}
    (hj : j < sim.length) :
    (sim.map (fun row => row.getD idx 0)).getD j 0
      = (sim.getD j []).getD idx 0 := by
  have h1 : j < (sim.map (fun row => row.getD idx 0)).length := by simpa using hj
  rw [getD_eq_getElem_of_lt h1, List.getElem_map,
    getD_eq_getElem_of_lt hj]

theorem aggStep_length (products : List String) (sim : List (List ℚ))
    (total : ℚ) (acc : List ℚ) (pos : Position)
    (h : acc.length = sim.length) :
    (aggStep products sim total acc pos).length = sim.length := by
  simp only [aggStep]
  split_ifs <;> simp [h]

theorem agg_loop_length (products : List String) (sim : List (List ℚ))
    (total : ℚ) :
    ∀ (ps : List Position) (acc : List ℚ), acc.length = sim.length →
      (ps.foldl (aggStep products sim total) acc).length = sim.length := by
  intro ps
  induction ps with
  | nil => intro acc h; simpa using h
  | cons p t ih =>
    intro acc h
    rw [List.foldl_cons]
    exact ih _ (aggStep_length _ _ _ _ _ h)

theorem aggStep_getD (products : List String) (sim : List (List ℚ))
    (total : ℚ) (acc : List ℚ) (pos : Position)
    (h : acc.length = sim.length) {j : ℕ} (hj : j < sim.length) :
    (aggStep products sim total acc pos).getD j 0
      = acc.getD j 0 + aggPosContribution products sim total j pos := by
  have hacc : j < acc.length := by omega
  have hcol : j < (sim.map
      (fun row => row.getD (products.indexOf pos.product) 0)).length := by
    simpa using hj
  simp only [aggStep, aggPosContribution]
  split_ifs with h1 h2
  · rw [getD_zipWith _ _ _ hacc hcol, getD_map_rows _ _ hj]
    ring
  · rw [getD_zipWith _ _ _ hacc hcol, getD_map_rows _ _ hj]
    ring
  · ring

theorem agg_loop_getD (products : List String) (sim : List (List ℚ))
    (total : ℚ) :
    ∀ (ps : List Position) (acc : List ℚ), acc.length = sim.length →
      ∀ j, j < sim.length →
        (ps.foldl (aggStep products sim total) acc).getD j 0
          = acc.getD j 0
            + (ps.map (aggPosContribution products sim total j)).sum := by
  intro ps
  induction ps with
  | nil => intro acc _ j _; simp
  | cons p t ih =>
    intro acc h j hj
    rw [List.foldl_cons, ih _ (aggStep_length _ _ _ _ _ h) j hj,
      aggStep_getD _ _ _ _ _ h hj, List.map_cons, List.sum_cons]
    ring

theorem getD_replicate_zero (n j : ℕ) :
    (List.replicate n (0 : ℚ)).getD j 0 = 0 := by
  apply getD_zero_of_all_zero
  intro x hx
  exact (List.eq_of_mem_replicate hx)

/- ------------------------------------------------------------------ -/
/- Claims                                                              -/
/- ------------------------------------------------------------------ -/

/-- C1: Historical VaR, the shared fallback.  An empty weighted series
yields `{var95 := 0, var99 := 0}`; otherwise, with `s` the ascending sort
of the series and `n` its length, `var95 = round(|s[⌊n*0.05⌋]| * value)`
and `var99 = round(|s[⌊n*0.01⌋]| * value)` with truncated indices and no
interpolation; for every `n < 20` both indices are `0`, so `var95` and
`var99` coincide. -/
theorem historical_var_truncated_quantile (r : List ℚ) (v : ℚ) :
    (r.length = 0 → historical_var r v = ⟨0, 0⟩) ∧
    (r.length ≠ 0 →
      historical_var r v
        = ⟨roundE |(sortAsc r).getD (r.length * 5 / 100) 0 * v|,
           roundE |(sortAsc r).getD (r.length * 1 / 100) 0 * v|⟩) ∧
    (r.length < 20 →
      r.length * 5 / 100 = 0 ∧ r.length * 1 / 100 = 0 ∧
        (historical_var r v).var95 = (historical_var r v).var99) := by
  refine ⟨fun h => by simp [historical_var, h],
    fun h => by simp [historical_var, h], fun h => ?_⟩
  have h5 : r.length * 5 / 100 = 0 := by omega
  have h1 : r.length * 1 / 100 = 0 := by omega
  refine ⟨h5, h1, ?_⟩
  by_cases h0 : r.length = 0
  · simp [historical_var, h0]
  · have h1' : r.length / 100 = 0 := by omega
    simp [historical_var, h0, h5, h1, h1']

/-- Witness for C1 at a three-observation series. -/
theorem historical_var_truncated_quantile_w :
    ([(1:ℚ)/10, -(1/10), 1/50].length < 20) ∧
    (historical_var [(1:ℚ)/10, -(1/10), 1/50] 1000).var95
      = (historical_var [(1:ℚ)/10, -(1/10), 1/50] 1000).var99 :=
  ⟨by decide,
   ((historical_var_truncated_quantile [(1:ℚ)/10, -(1/10), 1/50] 1000).2.2
     (by decide)).2.2⟩

/-- C2: the claim says no exception ever escapes `calculate_garch_var` /
`calculate_monte_carlo_var`.  The code's `except` handler, however, calls
`self._historical_var(portfolio_returns, portfolio_value, ...)`, and when
the exception was raised inside the preliminary portfolio computations the
local `portfolio_returns` was never bound, so the handler itself raises
`UnboundLocalError`, which propagates.  Concretely: a positions entry
missing the `quantity` key makes `_calculate_portfolio_value` raise
`KeyError`, and the method then propagates the handler's error. -/
theorem garch_prelim_exception_propagates :
    calculate_garch_var_exc false (fun pr v => historical_var pr v)
        [⟨some "WTI", none, none, none, none⟩] []
      = Except.error PyErr.nameError := rfl

/-- C3 counterexample: a valid input on which the garch method (routed to
the historical estimator, so both figures come from the same distribution)
returns `var95 = 20` and `var99 = 10`: with twenty observations the 5%
index is `1` and the 1% index is `0`, and on an all-positive return series
the deeper-tail observation has the smaller magnitude, so `var99 < var95`. -/
theorem var99_lt_var95_on_all_positive_series :
    calculate_garch_var true (fun _ => (0, 0, 0)) 0 0 id
        [⟨"A", 1, 1, 1000, "Long"⟩]
        [("A", (1:ℚ)/100 :: List.replicate 19 (2/100))]
      = ⟨20, 10⟩ ∧ ¬ ((20 : ℚ) ≤ 10) := by
  constructor
  · with_unfolding_all decide
  · norm_num

/-- C3 amended: `var99 ≥ var95` holds for a result derived from the
historical distribution whenever the sorted return at the truncated 5%
index is nonpositive (a loss, the intended regime); the counterexample
shows the inequality can fail when that observation is positive. -/
theorem historical_var_tail_monotone (r : List ℚ) (v : ℚ)
    (h : (sortAsc r).getD (r.length * 5 / 100) 0 ≤ 0) :
    (historical_var r v).var95 ≤ (historical_var r v).var99 := by
  by_cases h0 : r.length = 0
  · simp [historical_var, h0]
  · have hi95 : r.length * 5 / 100 < r.length := by omega
    have hij : r.length * 1 / 100 ≤ r.length * 5 / 100 := by omega
    have hmono := sortAsc_getD_mono r hij hi95
    have habs : |(sortAsc r).getD (r.length * 5 / 100) 0 * v|
        ≤ |(sortAsc r).getD (r.length * 1 / 100) 0 * v| := by
      rw [abs_mul, abs_mul]
      apply mul_le_mul_of_nonneg_right _ (abs_nonneg v)
      rw [abs_of_nonpos h, abs_of_nonpos (le_trans hmono h)]
      linarith
    simp only [historical_var, h0, if_false]
    exact roundE_mono habs

/-- Witness for the amended C3 at a concrete two-observation series. -/
theorem historical_var_tail_monotone_w :
    ((sortAsc [-(1:ℚ)/10, 1/50]).getD ([-(1:ℚ)/10, 1/50].length * 5 / 100) 0
      ≤ 0) ∧
    (historical_var [-(1:ℚ)/10, 1/50] 1000).var95
      ≤ (historical_var [-(1:ℚ)/10, 1/50] 1000).var99 :=
  ⟨by with_unfolding_all decide,
   historical_var_tail_monotone [-(1:ℚ)/10, 1/50] 1000
     (by with_unfolding_all decide)⟩

/-- C4: whenever the weighted portfolio return series has fewer than 100
observations, the garch method returns the Historical VaR result directly,
and the result does not depend on any of the model-fitting parameters
(no GARCH fit is attempted). -/
theorem garch_short_series_routes_to_historical (arch : Bool)
    (fit fit' : List ℚ → ℚ × ℚ × ℚ) (z05 z99 z05' z99' : ℚ) (S S' : ℚ → ℚ)
    (positions : List Position) (returns : List (String × List ℚ))
    (h : (calculate_portfolio_returns positions returns).length < 100) :
    calculate_garch_var arch fit z05 z99 S positions returns
      = historical_var (calculate_portfolio_returns positions returns)
          (calculate_portfolio_value positions) ∧
    calculate_garch_var arch fit z05 z99 S positions returns
      = calculate_garch_var arch fit' z05' z99' S' positions returns := by
  constructor
  · simp [calculate_garch_var, h]
  · simp [calculate_garch_var, h]

/-- Witness for C4: two instruments with two observations each, two
entirely different fit oracles, identical results. -/
theorem garch_short_series_routes_to_historical_w :
    ((calculate_portfolio_returns [⟨"A", 1, 1, 1, "Long"⟩]
        [("A", [(1:ℚ)/100, -(1/100)]), ("B", [(2:ℚ)/100, -(2/100)])]).length
      < 100) ∧
    calculate_garch_var true (fun _ => (1, 2, 3)) 7 8 (fun x => x + 1)
        [⟨"A", 1, 1, 1, "Long"⟩]
        [("A", [(1:ℚ)/100, -(1/100)]), ("B", [(2:ℚ)/100, -(2/100)])]
      = calculate_garch_var true (fun _ => (4, 5, 6)) 9 10 (fun x => x + 2)
          [⟨"A", 1, 1, 1, "Long"⟩]
          [("A", [(1:ℚ)/100, -(1/100)]), ("B", [(2:ℚ)/100, -(2/100)])] :=
  ⟨by with_unfolding_all decide,
   (garch_short_series_routes_to_historical true (fun _ => (1, 2, 3))
     (fun _ => (4, 5, 6)) 7 8 9 10 (fun x => x + 1) (fun x => x + 2)
     [⟨"A", 1, 1, 1, "Long"⟩]
     [("A", [(1:ℚ)/100, -(1/100)]), ("B", [(2:ℚ)/100, -(2/100)])]
     (by with_unfolding_all decide)).2⟩

set_option maxRecDepth 4000 in
/-- C5 counterexample: a position whose own `currentPrice` is zero makes the
total exposure zero, yet the stress scenarios price it from the
`current_prices` map and report nonzero P&L impacts. -/
theorem zero_exposure_nonzero_stress :
    calculate_portfolio_value [⟨"A", 1000, 1, 0, "Long"⟩] = 0 ∧
    (run_stress_tests [⟨"A", 1000, 1, 0, "Long"⟩] [("A", 85)]).map
        StressResult.pnlImpact = [-8500, 8500, -12750] ∧
    ((-8500 : ℚ) ≠ 0) := by
  refine ⟨by with_unfolding_all rfl, by with_unfolding_all rfl, by norm_num⟩

/-- C5 amended: empty positions or zero total exposure give exactly-zero
VaR for the garch and montecarlo methods, and empty positions give zero
P&L impact in every stress scenario; with zero exposure but nonempty
positions, a stress impact can be nonzero because the stress evaluator
prices positions from the `current_prices` map, not from the position's
own `currentPrice`. -/
theorem empty_or_zero_exposure_zero_results (arch : Bool)
    (fit : List ℚ → ℚ × ℚ × ℚ) (z05 z99 : ℚ) (S : ℚ → ℚ)
    (dS : ℕ → List ℚ) (dM : ℕ → ℕ → List (List ℚ))
    (positions : List Position) (returns : List (String × List ℚ))
    (sims : ℕ) (prices : List (String × ℚ))
    (h : positions = [] ∨ calculate_portfolio_value positions = 0) :
    calculate_garch_var arch fit z05 z99 S positions returns = ⟨0, 0⟩ ∧
    calculate_monte_carlo_var dS dM positions returns sims = ⟨0, 0⟩ ∧
    (positions = [] →
      ∀ res ∈ run_stress_tests positions prices, res.pnlImpact = 0) := by
  have hv : calculate_portfolio_value positions = 0 := by
    rcases h with h | h
    · rw [h]; rfl
    · exact h
  refine ⟨garch_var_zero_value _ _ _ _ _ _ _ hv,
    mc_var_zero_value _ _ _ _ _ hv, ?_⟩
  intro hnil res hres
  subst hnil
  have himp : ∀ s, calculate_stress_impact [] prices s = 0 := fun _ => rfl
  simp only [run_stress_tests, List.mem_cons, List.not_mem_nil,
    or_false] at hres
  rcases hres with rfl | rfl | rfl <;> simp [himp, roundE_zero]

/-- Witness for the amended C5 at a zero-price long position and at the
empty book. -/
theorem empty_or_zero_exposure_zero_results_w :
    (([] : List Position) = [] ∨
      calculate_portfolio_value [] = 0) ∧
    calculate_garch_var false (fun _ => (1, 2, 3)) 4 5 id []
        [("A", [(1:ℚ)/100])] = ⟨0, 0⟩ ∧
    calculate_monte_carlo_var (fun _ => [1]) (fun _ _ => [[1]]) []
        [("A", [(1:ℚ)/100])] 3 = ⟨0, 0⟩ :=
  have h := empty_or_zero_exposure_zero_results false (fun _ => (1, 2, 3))
    4 5 id (fun _ => [1]) (fun _ _ => [[1]]) [] [("A", [(1:ℚ)/100])] 3
    [("A", 85)] (Or.inl rfl)
  ⟨Or.inl rfl, h.1, h.2.1⟩

/-- C6 counterexample: with a single instrument the Monte Carlo path uses
the raw simulated draws as the portfolio-level vector.  For a Short
position the §4.1 weight/sign rule applied to the same draws gives the
negated vector, so the two disagree. -/
theorem mc_single_instrument_skips_aggregation :
    mc_portfolio_sim (fun _ => [1]) (fun _ _ => [[1]])
        [⟨"A", 1, 1, 1, "Short"⟩] ["A"] 1 = [1] ∧
    aggregate_simulated_returns [⟨"A", 1, 1, 1, "Short"⟩] ["A"] [[1]]
      = [-1] ∧
    ([1] : List ℚ) ≠ [-1] := by
  refine ⟨by with_unfolding_all rfl, by with_unfolding_all rfl, by norm_num⟩

/-- C6 amended: with two or more instruments the portfolio-level simulated
vector is `_aggregate_simulated_returns` of the correlated sample, and that
aggregation computes, entrywise, exactly the §4.1 rule — sum over positions
present in the simulated set of `sign * weight * instrumentReturn` (the
zero vector when the total exposure is zero); in the single-instrument case
the raw draws are used directly instead, without the weight/sign rule. -/
theorem mc_multi_instrument_follows_aggregation_rule (dS : ℕ → List ℚ)
    (dM : ℕ → ℕ → List (List ℚ)) (positions : List Position)
    (products : List String) (sim : List (List ℚ)) (sims : ℕ)
    (hp : 2 ≤ products.length) :
    mc_portfolio_sim dS dM positions products sims
      = aggregate_simulated_returns positions products
          (dM sims products.length) ∧
    (aggregate_simulated_returns positions products sim).length
      = sim.length ∧
    (∀ j, j < sim.length →
      (aggregate_simulated_returns positions products sim).getD j 0
        = if calculate_portfolio_value positions = 0 then 0
          else aggSimSpec positions products sim j) := by
  refine ⟨?_, ?_, ?_⟩
  · have h1 : products.length ≠ 1 := by omega
    simp [mc_portfolio_sim, h1]
  · simp only [aggregate_simulated_returns]
    split_ifs with h
    · simp
    · exact agg_loop_length _ _ _ _ _ (by simp)
  · intro j hj
    simp only [aggregate_simulated_returns]
    split_ifs with h
    · exact getD_replicate_zero _ _
    · rw [agg_loop_getD _ _ _ _ _ (by simp) j hj, getD_replicate_zero]
      simp [aggSimSpec]

/-- Witness for the amended C6: two instruments, one Short position, one
simulation row. -/
theorem mc_multi_instrument_follows_aggregation_rule_w :
    (2 ≤ (["A", "B"] : List String).length) ∧
    mc_portfolio_sim (fun _ => [7]) (fun _ _ => [[1, 2]])
        [⟨"A", 1, 1, 1, "Short"⟩] ["A", "B"] 1
      = aggregate_simulated_returns [⟨"A", 1, 1, 1, "Short"⟩] ["A", "B"]
          [[1, 2]] ∧
    (aggregate_simulated_returns [⟨"A", 1, 1, 1, "Short"⟩] ["A", "B"]
        [[1, 2]]).getD 0 0
      = if calculate_portfolio_value [⟨"A", 1, 1, 1, "Short"⟩] = 0 then 0
        else aggSimSpec [⟨"A", 1, 1, 1, "Short"⟩] ["A", "B"] [[1, 2]] 0 :=
  have h := mc_multi_instrument_follows_aggregation_rule (fun _ => [7])
    (fun _ _ => [[1, 2]]) [⟨"A", 1, 1, 1, "Short"⟩] ["A", "B"] [[1, 2]] 1
    (by decide)
  ⟨by decide, h.1, h.2.2 0 (by decide)⟩

/-- C7: with the conditional-volatility library unavailable and at least
100 observations, the garch method returns the rounded magnitudes of
`ppf * sqrt(variance) * portfolioValue` at the 5% / 1% Normal quantiles,
where the variance is exactly the specification's normalized EWMA with
λ = 0.94: weight `(1-λ)·λ^i`, normalized to total 1, on the squared return
at lag `i` counted backward from the most recent observation
(`z05`, `z99`, `S` stand for the library's `norm.ppf` values and square
root, about which nothing is assumed). -/
theorem garch_ewma_fallback (fit : List ℚ → ℚ × ℚ × ℚ) (z05 z99 : ℚ)
    (S : ℚ → ℚ) (positions : List Position)
    (returns : List (String × List ℚ))
    (h : 100 ≤ (calculate_portfolio_returns positions returns).length) :
    calculate_garch_var false fit z05 z99 S positions returns
      = ⟨roundE |z05 * S (ewmaVarianceSpec
            (calculate_portfolio_returns positions returns))
            * calculate_portfolio_value positions|,
         roundE |z99 * S (ewmaVarianceSpec
            (calculate_portfolio_returns positions returns))
            * calculate_portfolio_value positions|⟩ := by
  have h' : ¬ (calculate_portfolio_returns positions returns).length < 100 :=
    by omega
  simp [calculate_garch_var, h', simplified_garch, ewmaVariance_eq_spec]

set_option maxRecDepth 4000 in
/-- Witness for C7 at a 100-observation series. -/
theorem garch_ewma_fallback_w :
    (100 ≤ (calculate_portfolio_returns ([] : List Position)
        [("A", List.replicate 100 ((1:ℚ)/100))]).length) ∧
    calculate_garch_var false (fun _ => (1, 2, 3)) 4 5 (fun x => x + 6) []
        [("A", List.replicate 100 ((1:ℚ)/100))]
      = ⟨roundE |4 * (ewmaVarianceSpec (calculate_portfolio_returns []
            [("A", List.replicate 100 ((1:ℚ)/100))]) + 6)
            * calculate_portfolio_value []|,
         roundE |5 * (ewmaVarianceSpec (calculate_portfolio_returns []
            [("A", List.replicate 100 ((1:ℚ)/100))]) + 6)
            * calculate_portfolio_value []|⟩ :=
  ⟨by with_unfolding_all decide,
   garch_ewma_fallback (fun _ => (1, 2, 3)) 4 5 (fun x => x + 6) []
     [("A", List.replicate 100 ((1:ℚ)/100))] (by with_unfolding_all decide)⟩

/-- C8: the total stress impact is, for every positions list, price map and
shock fraction, the sum over priced positions of
`(currentPrice*s) * quantity * lotSize * (+1 if Long else -1)` (unpriced
positions contribute zero); and on the single Long position with
`quantity = 1000`, `lotSize = 1`, `currentPrice = 85`, the three canned
scenarios report P&L impacts `-8500`, `+8500`, `-12750`. -/
theorem stress_impact_formula :
    (∀ (positions : List Position) (prices : List (String × ℚ)) (s : ℚ),
      calculate_stress_impact positions prices s
        = stressImpactSpec positions prices s) ∧
    (run_stress_tests [⟨"A", 1000, 1, 85, "Long"⟩] [("A", 85)]).map
        StressResult.pnlImpact = [-8500, 8500, -12750] := by
  exact ⟨calculate_stress_impact_eq_spec, by with_unfolding_all rfl⟩

/-- C9: two whole runs — construct an engine with the same seed from any
two prior process states, then issue the same call sequence — produce
identical Monte Carlo output lists, whatever deterministic draw functions
the generator implements.  Seeding overwrites the generator state with a
function of the seed alone, so the outputs depend only on the seed and the
calls. -/
theorem mc_two_run_reproducibility
    (dS : RngState → ℕ → List ℚ × RngState)
    (dM : RngState → ℕ → ℕ → List (List ℚ) × RngState)
    (seed : ℕ) (calls : List McCall) (g1 g2 : RngState) :
    runFromSeed dS dM seed calls g1 = runFromSeed dS dM seed calls g2 := rfl

/-- C10: `__init__` seeds the process-global generator, not one owned by
the instance.  Constructing engine A with seed `s1` and then engine B with
seed `s2` leaves the global state at `np.random.seed(s2)`; A's subsequent
Monte Carlo call therefore returns exactly what a fresh engine constructed
with `s2` would return on the same input — the engine object passed to the
call is irrelevant to the result. -/
theorem init_seeds_global_generator
    (dS : RngState → ℕ → List ℚ × RngState)
    (dM : RngState → ℕ → ℕ → List (List ℚ) × RngState)
    (s1 s2 : ℕ) (positions : List Position)
    (returns : List (String × List ℚ)) (sims : ℕ) (g : RngState) :
    (riskEngine_init s2 (riskEngine_init s1 g).2).2 = np_random_seed s2 ∧
    calculate_monte_carlo_var_rng dS dM (riskEngine_init s1 g).1 positions
        returns sims (riskEngine_init s2 (riskEngine_init s1 g).2).2
      = calculate_monte_carlo_var_rng dS dM (riskEngine_init s2 g).1
          positions returns sims (riskEngine_init s2 g).2 := ⟨rfl, rfl⟩
